import Mathlib

/-!
Verification development for the fantasy-basketball Discord bot
(`src/agent.py`, `src/bot.py`).

Strings are modelled as lists of Unicode code points (`List Nat`), so that
Python's ASCII-relevant character operations (`str.lower`, `str.upper`,
`str.title`, `str.isalnum`, `str.isspace`) become arithmetic on code points.
Python `dict`s that preserve insertion order are modelled as lists.

Each definition is translated from the corresponding Python function in
`src/agent.py`; the handful of definitions whose name ends in `SpecStated`
or `SpecAmended` instead transcribe the natural-language specification, for
comparison against the code.
-/

/-- A string, as its list of Unicode code points. -/
abbrev Str := List Nat

/-- Turn a Lean string literal into its code-point model. -/
def strN (s : String) : Str := s.toList.map Char.toNat

/-- ASCII lower-casing of one code point (model of Python `str.lower` per char). -/
def lowerN (c : Nat) : Nat := if 65 ≤ c ∧ c ≤ 90 then c + 32 else c

/-- ASCII upper-casing of one code point (model of Python `str.upper` per char). -/
def upperN (c : Nat) : Nat := if 97 ≤ c ∧ c ≤ 122 then c - 32 else c

/-- Is this code point an ASCII uppercase letter? (Python `str.isupper` per char.) -/
def isUpperN (c : Nat) : Bool := 65 ≤ c && c ≤ 90

/-- Is this code point an ASCII letter? -/
def isAlphaN (c : Nat) : Bool := (65 ≤ c && c ≤ 90) || (97 ≤ c && c ≤ 122)

/-- Is this code point an ASCII letter or digit? (Python `str.isalnum`.) -/
def isAlnumN (c : Nat) : Bool := isAlphaN c || (48 ≤ c && c ≤ 57)

/-- Is this code point whitespace? (Python `str.isspace`, ASCII fragment.) -/
def isSpaceN (c : Nat) : Bool := c = 32 || c = 9 || c = 10 || c = 13

/-- Lower-case a whole string. -/
def lowerStr (s : Str) : Str := s.map lowerN

/-- Python `a in b` for strings: is `pat` a contiguous substring of `s`?
The empty string is a substring of everything, as in Python. -/
def isSubstrN : Str → Str → Bool
  | pat, [] => pat.isEmpty
  | pat, s@(_ :: rest) => pat.isPrefixOf s || isSubstrN pat rest

/-- Python `str.strip()`: drop leading and trailing whitespace. -/
def stripWS (s : Str) : Str :=
  ((s.dropWhile (fun c => isSpaceN c)).reverse.dropWhile (fun c => isSpaceN c)).reverse

/-- Worker for `splitWS`, accumulating the current word reversed. -/
def splitWSGo : Str → Str → List Str
  | [], cur => if cur.isEmpty then [] else [cur.reverse]
  | c :: rest, cur =>
    if isSpaceN c then
      if cur.isEmpty then splitWSGo rest [] else cur.reverse :: splitWSGo rest []
    else splitWSGo rest (c :: cur)

/-- Python `str.split()` (no argument): split on whitespace runs, no empty parts. -/
def splitWS (s : Str) : List Str := splitWSGo s []

/-- Join a list of strings with a single separator code point (Python `sep.join`). -/
def joinWith (sep : Nat) : List Str → Str
  | [] => []
  | [x] => x
  | x :: xs => x ++ sep :: joinWith sep xs

/-- Python `content.split('\n')`: split on newline, keeping empty parts;
the empty string yields one empty part, as in Python. -/
def splitNl : Str → List Str
  | [] => [[]]
  | c :: rest =>
    if c = 10 then [] :: splitNl rest
    else match splitNl rest with
      | l :: ls => (c :: l) :: ls
      | [] => [[c]]

/-- Python `str.title()` worker: the flag records whether the previous
character was a letter (so we are inside a word). -/
def titleGo : Str → Bool → Str
  | [], _ => []
  | c :: rest, prevAlpha =>
    (if isAlphaN c then (if prevAlpha then lowerN c else upperN c) else c)
      :: titleGo rest (isAlphaN c)

/-- Python `str.title()`: start of each word upper-cased, rest lower-cased. -/
def titleCase (s : Str) : Str := titleGo s false

/-!
## Message chunking — `MistralAgent._split_into_messages` (src/agent.py:1005-1032)
-/

/-- The loop of `_split_into_messages`: fold over the lines, flushing
`current_chunk` into `responses` whenever adding the next line would
exceed `chunk_size`; finally append the last chunk if non-empty. -/
def splitMessagesGo (chunkSize : Nat) : List Str → List Str → Str → List Str
  | [], responses, cur => if cur.isEmpty then responses else responses ++ [cur]
  | line :: rest, responses, cur =>
    if cur.length + line.length + 1 > chunkSize then
      splitMessagesGo chunkSize rest (responses ++ [cur]) line
    else
      splitMessagesGo chunkSize rest responses
        (if cur.isEmpty then line else cur ++ 10 :: line)

/-- `MistralAgent._split_into_messages(content, chunk_size=1900)`. -/
def split_into_messages (content : Str) (chunkSize : Nat := 1900) : List Str :=
  splitMessagesGo chunkSize (splitNl content) [] []

example : split_into_messages (strN "a\nb") = [strN "a\nb"] := by decide
example : split_into_messages (strN "") = [] := by decide
example : split_into_messages (strN "ab\ncd") 3 = [strN "ab", strN "cd"] := by decide

/-!
## Draft state — `DraftState` (src/agent.py:48-107)
-/

/-- The `Position` enum (src/agent.py:38-46). -/
inductive Position
  | PG | SG | SF | PF | C | G | F | UTIL
deriving DecidableEq, Repr

/-- `DraftState` fields (src/agent.py:49-58).  The Discord bot validates
`rounds ≥ 1`, `1 ≤ pick_position ≤ total_players` and `total_players ≥ 2`
before constructing one (src/bot.py:140), so the numeric fields are `Nat`. -/
structure DraftState where
  total_rounds : Nat
  pick_position : Nat
  total_players : Nat
  current_round : Nat
  picks_made : Nat
  drafted_players : List (Str × Option Position)
  my_team : List (Str × Option Position)
  available_players : List Str
  is_active : Bool
deriving DecidableEq, Repr

/-- `DraftState.__init__` (src/agent.py:49-58): round 1, no picks, empty
lists, inactive. -/
def DraftState.init (total_rounds pick_position total_players : Nat) : DraftState :=
  { total_rounds := total_rounds
    pick_position := pick_position
    total_players := total_players
    current_round := 1
    picks_made := 0
    drafted_players := []
    my_team := []
    available_players := []
    is_active := false }

/-- `DraftState.is_user_turn` (src/agent.py:60-64): the next pick slot
(1-based) equals the user's pick position. -/
def DraftState.isUserTurn (s : DraftState) : Bool :=
  (s.picks_made % s.total_players) + 1 == s.pick_position

/-- `DraftState.update_draft` (src/agent.py:89-107).  Note this method is
never called by the bot (src/bot.py routes `!pick` to
`MistralAgent.update_draft_pick`); it is embedded for reference.  It
increments `picks_made` *before* testing `is_user_turn`. -/
def DraftState.update_draft (s : DraftState) (drafted_player : Str)
    (position : Option Position) : DraftState :=
  let s := { s with picks_made := s.picks_made + 1 }
  let s := if drafted_player ∈ s.available_players then
      { s with available_players := s.available_players.erase drafted_player }
    else s
  let s := { s with drafted_players := s.drafted_players ++ [(drafted_player, position)] }
  let s := if s.isUserTurn then
      { s with my_team := s.my_team ++ [(drafted_player, position)] }
    else s
  let s := { s with current_round := s.picks_made / s.total_players + 1 }
  if s.picks_made ≥ s.total_players * s.total_rounds then
    { s with is_active := false }
  else s

/-!
## Recording a pick — `MistralAgent.update_draft_pick` (src/agent.py:911-1003)
-/

/-- The possible replies of `update_draft_pick`; each constructor stands for
one of the literal message strings returned by the Python function. -/
inductive PickResult
  | noActiveDraft       -- "No active draft in this channel!"
  | pickNumberNotPositive  -- "Pick number must be positive!"
  | noPlayerName        -- "Please provide a player name!"
  | positionRequired    -- "Please specify a position for your pick (...)"
  | invalidPosition     -- "Invalid position '...'. Please use: ..."
  | draftComplete       -- "🎉 Draft Complete! 🎉"
  | recordedYourTurn    -- pick summary plus "It's your turn to draft!"
  | recorded            -- pick summary
deriving DecidableEq, Repr

/-- Did the call actually record a pick (as opposed to returning an error)? -/
def PickResult.isRecorded : PickResult → Bool
  | .draftComplete => true
  | .recordedYourTurn => true
  | .recorded => true
  | _ => false

/-- `Position[position]` (src/agent.py:936): enum lookup by member name,
raising (here: `none`) on any other string. -/
def parsePosition (p : Str) : Option Position :=
  if p = strN "PG" then some .PG
  else if p = strN "SG" then some .SG
  else if p = strN "SF" then some .SF
  else if p = strN "PF" then some .PF
  else if p = strN "C" then some .C
  else if p = strN "G" then some .G
  else if p = strN "F" then some .F
  else if p = strN "UTIL" then some .UTIL
  else none

/-- The best-match scan of `update_draft_pick` (src/agent.py:941-950):
keep the shortest available player containing the query as a substring
(case-insensitively, earliest wins ties); an exact token match overrides
everything and stops the scan. -/
def findBestMatch (player_name : Str) (pool : List Str) (best : Option Str) : Option Str :=
  match pool with
  | [] => best
  | p :: rest =>
    let best :=
      if isSubstrN (lowerStr player_name) (lowerStr p) then
        match best with
        | none => some p
        | some b => if p.length < b.length then some p else some b
      else best
    if lowerStr player_name ∈ splitWS (lowerStr p) then some p
    else findBestMatch player_name rest best

/-- The state mutation of `update_draft_pick` once all guards have passed
(src/agent.py:940-973): resolve the name against the pool, remove a matched
name from the pool, bump `picks_made`, recompute `current_round`, append to
`drafted_players` (and to `my_team` when `pick_num == pick_position`), and
deactivate the draft when the pick threshold is reached. -/
def recordPickBody (s : DraftState) (is_user_pick : Bool) (player_name : Str)
    (pos_enum : Option Position) : DraftState × PickResult :=
  let bm := findBestMatch player_name s.available_players none
  let best_match := match bm with
    | none => titleCase player_name
    | some b => b
  let avail := match bm with
    | none => s.available_players
    | some b => s.available_players.erase b
  let pm := s.picks_made + 1
  let s' : DraftState :=
    { s with
      picks_made := pm
      current_round := (pm - 1) / s.total_players + 1
      drafted_players := s.drafted_players ++ [(best_match, pos_enum)]
      my_team := if is_user_pick then s.my_team ++ [(best_match, pos_enum)] else s.my_team
      available_players := avail }
  if pm ≥ s.total_players * s.total_rounds then
    ({ s' with is_active := false }, .draftComplete)
  else if s'.isUserTurn then (s', .recordedYourTurn)
  else (s', .recorded)

/-- `MistralAgent.update_draft_pick` (src/agent.py:911-1003) for one
channel's draft state.  `pick_num` is the caller-supplied pick number
(`Int`, since the user may type any integer); `position` is `none` when the
argument was omitted.  A guard failure returns the state unchanged. -/
def update_draft_pick (s : DraftState) (pick_num : Int) (player_name : Str)
    (position : Option Str) : DraftState × PickResult :=
  if ¬ s.is_active then (s, .noActiveDraft)
  else if pick_num < 1 then (s, .pickNumberNotPositive)
  else if player_name.isEmpty then (s, .noPlayerName)
  else
    let is_user_pick := pick_num == (s.pick_position : Int)
    if is_user_pick ∧ (position = none ∨ position = some []) then
      (s, .positionRequired)
    else
      match position with
      | some p =>
        if p.isEmpty then recordPickBody s is_user_pick player_name none
        else
          match parsePosition p with
          | none => (s, .invalidPosition)
          | some e => recordPickBody s is_user_pick player_name (some e)
      | none => recordPickBody s is_user_pick player_name none

/-!
## Starting a draft — `MistralAgent.start_draft` (src/agent.py:862-909)
-/

/-- The possible replies of `start_draft`; each constructor stands for one
of the literal message strings returned by the Python function. -/
inductive StartResult
  | alreadyActive        -- "A draft is already in progress in this channel! ..."
  | directoryUnavailable -- "Error: Could not fetch player list. ..."
  | started              -- "🏀 Draft Successfully Started! 🏀 ..." settings summary
deriving DecidableEq, Repr

/-- `MistralAgent.start_draft` for one channel.  `stored` is the channel's
entry in `self.draft_states` (`none` when absent); `pool` is the name list
returned by the player-directory collaborator `_get_players()` in ranking
order (empty on fetch failure, per the collaborator contract).  Returns the
channel's new stored entry and the reply. -/
def start_draft (stored : Option DraftState) (pool : List Str)
    (total_rounds pick_position total_players : Nat) :
    Option DraftState × StartResult :=
  match stored with
  | some s =>
    if s.is_active then (stored, .alreadyActive)
    else
      let ds := { DraftState.init total_rounds pick_position total_players with
                    available_players := pool }
      if ds.available_players.isEmpty then (stored, .directoryUnavailable)
      else (some { ds with is_active := true }, .started)
  | none =>
    let ds := { DraftState.init total_rounds pick_position total_players with
                  available_players := pool }
    if ds.available_players.isEmpty then (stored, .directoryUnavailable)
    else (some { ds with is_active := true }, .started)

/-!
## Sequences of pick commands
-/

/-- One `!pick` command's arguments: pick number, player name, optional
position string. -/
structure PickCmd where
  pick_num : Int
  player_name : Str
  position : Option Str
deriving DecidableEq, Repr

/-- Run a sequence of `update_draft_pick` calls, keeping only the state. -/
def runPicks (s : DraftState) : List PickCmd → DraftState
  | [] => s
  | c :: cs => runPicks (update_draft_pick s c.pick_num c.player_name c.position).1 cs

/-- Did every call in the sequence actually record a pick? -/
def allRecorded (s : DraftState) : List PickCmd → Bool
  | [] => true
  | c :: cs =>
    let r := update_draft_pick s c.pick_num c.player_name c.position
    r.2.isRecorded && allRecorded r.1 cs

/-!
## Name resolution — `MistralAgent._find_player_match` (src/agent.py:551-641)

The player directory maps names to stat dictionaries; the stats are carried
through `_find_player_match` unchanged and never influence the matching, so
the directory is modelled as its list of names (in insertion = ranking
order) and the result as the matched name.
-/

/-- `normalize_name` (src/agent.py:553-557): keep alphanumerics and
whitespace, lower-case, strip. -/
def normalize_name (name : Str) : Str :=
  stripWS (lowerStr (name.filter (fun c => isAlnumN c || isSpaceN c)))

/-- The name-particle list of `split_name` (src/agent.py:562). -/
def nameParticles : List Str :=
  [strN "Mc", strN "Mac", strN "De", strN "Van", strN "Von", strN "St",
   strN "O", strN "Le", strN "La", strN "Al"]

/-- The loop of `split_name` (src/agent.py:565-582): walk the characters
with their index; an uppercase letter at index `> 0` starts a new part
unless the text from the current part through the next three characters
starts with a known name particle. -/
def splitNameGo (full : Str) : Str → Nat → Str → List Str → List Str
  | [], _, current, parts => parts ++ [current]
  | c :: rest, i, current, parts =>
    if i > 0 && isUpperN c then
      let next_chars := (full.drop i).take 3
      let isPfx := nameParticles.any (fun w => w.isPrefixOf (current ++ next_chars))
      if !isPfx then splitNameGo full rest (i + 1) [c] (parts ++ [current])
      else splitNameGo full rest (i + 1) (current ++ [c]) parts
    else splitNameGo full rest (i + 1) (current ++ [c]) parts

/-- `split_name` (src/agent.py:559-584): split a camelCase/PascalCase name
into space-separated words. -/
def split_name (name : Str) : Str := joinWith 32 (splitNameGo name name 0 [] [])

/-- Stage 1 of `_find_player_match` (src/agent.py:593-596): exact match on
the normalized name, first hit wins. -/
def fpmStage1 (normalized_search : Str) (players_map : List Str) : Option Str :=
  players_map.find? (fun p => normalize_name p == normalized_search)

/-- Stage 2 of `_find_player_match` (src/agent.py:598-607): when the query
has at least two tokens, match a candidate with at least two tokens whose
first token contains the query's first token *as a substring* and whose
last token contains the query's last token as a substring. -/
def fpmStage2 (search_parts : List Str) (players_map : List Str) : Option Str :=
  if search_parts.length > 1 then
    players_map.find? (fun p =>
      let player_parts := splitWS (normalize_name p)
      decide (player_parts.length > 1)
        && isSubstrN (search_parts.headD []) (player_parts.headD [])
        && isSubstrN (search_parts.getLastD []) (player_parts.getLastD []))
  else none

/-- Stage 3 of `_find_player_match` (src/agent.py:609-614): space-insensitive
substring containment. -/
def fpmStage3 (search_parts : List Str) (players_map : List Str) : Option Str :=
  let no_space_search := search_parts.flatten
  players_map.find? (fun p =>
    isSubstrN no_space_search ((splitWS (normalize_name p)).flatten))

/-- Stage 4 of `_find_player_match` (src/agent.py:616-641): score-based
partial match, +3 per query token equal to a candidate token, else +1 per
query token that is a substring of some candidate token; first candidate
with a strictly larger score wins, accepted only when the best score
reaches 2. -/
def fpmStage4 (search_parts : List Str) (players_map : List Str) : Option Str :=
  let best := players_map.foldl (fun acc p =>
    let player_parts := splitWS (normalize_name p)
    let score := search_parts.foldl (fun sc part =>
      if part ∈ player_parts then sc + 3
      else if player_parts.any (fun w => isSubstrN part w) then sc + 1
      else sc) 0
    if score > acc.2 then (some p, score) else acc)
    ((none : Option Str), (0 : Nat))
  if best.2 ≥ 2 then best.1 else none

/-- `MistralAgent._find_player_match` (src/agent.py:551-641): strip the
query, apply `split_name` when it has no embedded space, normalize, then
run the four stages in order, first producing stage wins. -/
def find_player_match (search_name : Str) (players_map : List Str) : Option Str :=
  let stripped := stripWS search_name
  let prepared := if 32 ∈ stripped then stripped else split_name stripped
  let normalized_search := normalize_name prepared
  let search_parts := splitWS normalized_search
  match fpmStage1 normalized_search players_map with
  | some p => some p
  | none =>
    match fpmStage2 search_parts players_map with
    | some p => some p
    | none =>
      match fpmStage3 search_parts players_map with
      | some p => some p
      | none => fpmStage4 search_parts players_map

/-- Stage 2 as the specification *states* it: "the query's first token is a
prefix of a candidate's first token AND the query's last token is a prefix
of that candidate's last token" (no substring containment, no requirement
that the candidate have two tokens). -/
def fpmStage2SpecStated (search_parts : List Str) (players_map : List Str) : Option Str :=
  if search_parts.length > 1 then
    players_map.find? (fun p =>
      let player_parts := splitWS (normalize_name p)
      (search_parts.headD []).isPrefixOf (player_parts.headD [])
        && (search_parts.getLastD []).isPrefixOf (player_parts.getLastD []))
  else none

/-- The resolution algorithm exactly as the specification states it:
stages 1-4 in order, with stage 2 the prefix-based rule. -/
def find_player_match_SpecStated (search_name : Str) (players_map : List Str) : Option Str :=
  let stripped := stripWS search_name
  let prepared := if 32 ∈ stripped then stripped else split_name stripped
  let normalized_search := normalize_name prepared
  let search_parts := splitWS normalized_search
  match fpmStage1 normalized_search players_map with
  | some p => some p
  | none =>
    match fpmStage2SpecStated search_parts players_map with
    | some p => some p
    | none =>
      match fpmStage3 search_parts players_map with
      | some p => some p
      | none => fpmStage4 search_parts players_map

/-- Stage 2 as amended: the query's first (resp. last) token must occur as a
substring of the candidate's first (resp. last) token, and the candidate
must itself have at least two tokens. -/
def fpmStage2SpecAmended (search_parts : List Str) (players_map : List Str) : Option Str :=
  if search_parts.length > 1 then
    players_map.find? (fun p =>
      let player_parts := splitWS (normalize_name p)
      decide (player_parts.length > 1)
        && isSubstrN (search_parts.headD []) (player_parts.headD [])
        && isSubstrN (search_parts.getLastD []) (player_parts.getLastD []))
  else none

/-- The resolution algorithm with the amended stage 2. -/
def find_player_match_SpecAmended (search_name : Str) (players_map : List Str) : Option Str :=
  let stripped := stripWS search_name
  let prepared := if 32 ∈ stripped then stripped else split_name stripped
  let normalized_search := normalize_name prepared
  let search_parts := splitWS normalized_search
  match fpmStage1 normalized_search players_map with
  | some p => some p
  | none =>
    match fpmStage2SpecAmended search_parts players_map with
    | some p => some p
    | none =>
      match fpmStage3 search_parts players_map with
      | some p => some p
      | none => fpmStage4 search_parts players_map

/-!
## Player comparison ranking — `MistralAgent.compare_players` (src/agent.py:643-753)

The enrichment queries are collaborator calls; their result texts are
inputs here.  For each player matched in the rankings, the code classifies
the injury status from the two search-result strings (src/agent.py:707-717),
adjusts the rank, and sorts ascending by adjusted rank with Python's stable
`sorted` (src/agent.py:727-731).
-/

/-- Injury status as assigned by `compare_players`. -/
inductive InjStatus
  | seasonEnding | longTerm | dayToDay | healthy
deriving DecidableEq, Repr

/-- The classification chain of src/agent.py:707-717, applied to the
lower-cased season-ending search result and injury search result. -/
def classify_injury (season_ending_result injury_result : Str) : InjStatus :=
  if isSubstrN (strN "season") (lowerStr season_ending_result)
      && isSubstrN (strN "ending") (lowerStr season_ending_result) then
    .seasonEnding
  else if [strN "out indefinitely", strN "out for", strN "expected to miss",
           strN "several weeks"].any
        (fun t => isSubstrN t (lowerStr injury_result)) then
    .longTerm
  else if [strN "day-to-day", strN "questionable", strN "probable"].any
        (fun t => isSubstrN t (lowerStr injury_result)) then
    .dayToDay
  else .healthy

/-- The rank adjustment of src/agent.py:707-717: season-ending forces rank
9999, long-term adds 50, day-to-day and healthy leave it unchanged. -/
def adjust_rank : InjStatus → Int → Int
  | .seasonEnding, _ => 9999
  | .longTerm, r => r + 50
  | .dayToDay, r => r
  | .healthy, r => r

/-- One matched player entering the comparison: name, base rank from the
directory stats, and the two enrichment search-result texts. -/
structure CmpEntry where
  player : Str
  base_rank : Int
  se_text : Str
  inj_text : Str
deriving DecidableEq, Repr

/-- A player with its classified status and adjusted rank. -/
structure RankedEntry where
  player : Str
  status : InjStatus
  rank : Int
deriving DecidableEq, Repr

/-- Classify and adjust one entry (src/agent.py:705-717). -/
def enrichEntry (e : CmpEntry) : RankedEntry :=
  let st := classify_injury e.se_text e.inj_text
  { player := e.player, status := st, rank := adjust_rank st e.base_rank }

/-- The final ranking of `compare_players` (src/agent.py:727-731): stable
ascending sort by adjusted rank. -/
def compare_ranking (es : List CmpEntry) : List RankedEntry :=
  (es.map enrichEntry).mergeSort (fun a b => decide (a.rank ≤ b.rank))

/-!
## Helper lemmas about recording a pick
-/

/-- The name a recorded pick resolves to: the scanned best match when one
exists, else the title-cased input (src/agent.py:952-958). -/
def resolveName (player_name : Str) (pool : List Str) : Str :=
  match findBestMatch player_name pool none with
  | none => titleCase player_name
  | some b => b

/-- The position enum a recorded pick stores (src/agent.py:932-938):
`none` when no position string was supplied or it was empty, otherwise the
parsed enum member. -/
def parsedPos : Option Str → Option Position
  | none => none
  | some p => parsePosition p

theorem fst_ite_pair {α β : Type _} (c : Prop) [Decidable c] (x : α) (a b : β) :
    (if c then (x, a) else (x, b)).1 = x := by split <;> rfl

theorem snd_ite_pair {α β : Type _} (c : Prop) [Decidable c] (x : α) (a b : β) :
    (if c then (x, a) else (x, b)).2 = if c then a else b := by split <;> rfl

theorem isRecorded_ite (c : Prop) [Decidable c] :
    (if c then PickResult.recordedYourTurn else PickResult.recorded).isRecorded = true := by
  split <;> rfl

/-- Full characterisation of `recordPickBody` on an active draft: every
field of the successor state, and that the reply is a recording reply. -/
theorem recordPickBody_spec (s : DraftState) (iu : Bool) (name : Str)
    (pe : Option Position) (ha : s.is_active = true) :
    (recordPickBody s iu name pe).1.picks_made = s.picks_made + 1 ∧
    (recordPickBody s iu name pe).1.current_round = s.picks_made / s.total_players + 1 ∧
    (recordPickBody s iu name pe).1.total_players = s.total_players ∧
    (recordPickBody s iu name pe).1.total_rounds = s.total_rounds ∧
    (recordPickBody s iu name pe).1.pick_position = s.pick_position ∧
    (recordPickBody s iu name pe).1.drafted_players
      = s.drafted_players ++ [(resolveName name s.available_players, pe)] ∧
    (recordPickBody s iu name pe).1.my_team
      = (if iu then s.my_team ++ [(resolveName name s.available_players, pe)]
         else s.my_team) ∧
    (recordPickBody s iu name pe).1.available_players
      = (match findBestMatch name s.available_players none with
         | none => s.available_players
         | some b => s.available_players.erase b) ∧
    ((recordPickBody s iu name pe).1.is_active = false
      ↔ s.picks_made + 1 ≥ s.total_players * s.total_rounds) ∧
    (recordPickBody s iu name pe).2.isRecorded = true := by
  unfold recordPickBody resolveName
  cases hbm : findBestMatch name s.available_players none <;>
    (simp only []
     split
     case isTrue h =>
       exact ⟨rfl, rfl, rfl, rfl, rfl, rfl, rfl, rfl, ⟨fun _ => h, fun _ => rfl⟩, rfl⟩
     case isFalse h =>
       simp [fst_ite_pair, snd_ite_pair, isRecorded_ite, ha]
       omega)

theorem parsePosition_nil : parsePosition [] = none := by decide

/-- A call of `update_draft_pick` that records a pick was made on an active
draft, and is exactly `recordPickBody` applied with the caller-supplied
`pick_num == pick_position` user test and the parsed position. -/
theorem update_draft_pick_recorded (s : DraftState) (n : Int) (name : Str)
    (pos : Option Str)
    (h : (update_draft_pick s n name pos).2.isRecorded = true) :
    s.is_active = true ∧
    update_draft_pick s n name pos
      = recordPickBody s (n == (s.pick_position : Int)) name (parsedPos pos) := by
  by_cases h1 : s.is_active = true
  case neg => simp [update_draft_pick, h1, PickResult.isRecorded] at h
  refine ⟨h1, ?_⟩
  by_cases h2 : n < 1
  case pos => simp [update_draft_pick, h1, h2, PickResult.isRecorded] at h
  by_cases h3 : name.isEmpty = true
  case pos => simp [update_draft_pick, h1, h2, h3, PickResult.isRecorded] at h
  by_cases h4 : (n == (s.pick_position : Int)) = true ∧ (pos = none ∨ pos = some [])
  case pos => simp [update_draft_pick, h1, h2, h3, h4, PickResult.isRecorded] at h
  cases pos with
  | none =>
    have hn : ¬ n = (s.pick_position : Int) := by
      intro hb
      exact h4 ⟨by simpa using hb, Or.inl rfl⟩
    simp [update_draft_pick, h1, h2, h3, hn, parsedPos]
  | some p =>
    by_cases h5 : p.isEmpty = true
    · have hp : p = [] := List.isEmpty_iff.mp h5
      have hn : ¬ n = (s.pick_position : Int) := by
        intro hb
        exact h4 ⟨by simpa using hb, Or.inr (by rw [hp])⟩
      simp [update_draft_pick, h1, h2, h3, h5, hn, parsedPos, hp, parsePosition_nil]
    · have hp : ¬ p = [] := fun hc => h5 (by simp [hc])
      cases he : parsePosition p with
      | none =>
        simp [update_draft_pick, h1, h2, h3, h5, hp, he, PickResult.isRecorded] at h
      | some e =>
        simp [update_draft_pick, h1, h2, h3, h5, hp, he, parsedPos]

/-- On an inactive draft, `update_draft_pick` changes nothing and reports
"No active draft" (src/agent.py:913-914). -/
theorem update_draft_pick_inactive (s : DraftState) (n : Int) (name : Str)
    (pos : Option Str) (h : s.is_active = false) :
    update_draft_pick s n name pos = (s, .noActiveDraft) := by
  simp [update_draft_pick, h]

/-- A whole sequence of pick commands on an inactive draft changes nothing. -/
theorem runPicks_inactive (cs : List PickCmd) (s : DraftState)
    (h : s.is_active = false) : runPicks s cs = s := by
  induction cs with
  | nil => rfl
  | cons c cs ih =>
    unfold runPicks
    rw [update_draft_pick_inactive s c.pick_num c.player_name c.position h]
    exact ih

/-!
## Helper lemmas about starting a draft
-/

/-- Is there an active draft stored for the channel? -/
def isActiveOpt : Option DraftState → Bool
  | none => false
  | some s => s.is_active

theorem start_draft_cases (stored : Option DraftState) (pool : List Str)
    (tr pp tp : Nat) :
    ((start_draft stored pool tr pp tp).2 ≠ StartResult.started
      ↔ (isActiveOpt stored = true ∨ pool = [])) ∧
    (start_draft stored pool tr pp tp).1
      = (if isActiveOpt stored = true ∨ pool = [] then stored
         else some { DraftState.init tr pp tp with
                       available_players := pool, is_active := true }) := by
  cases stored with
  | none =>
    by_cases hp : pool = [] <;>
      simp [start_draft, isActiveOpt, hp, List.isEmpty_iff]
  | some s =>
    by_cases ha : s.is_active = true
    · simp [start_draft, isActiveOpt, ha]
    · by_cases hp : pool = [] <;>
        simp [start_draft, isActiveOpt, ha, hp, List.isEmpty_iff, Bool.not_eq_true]

theorem start_draft_started (stored : Option DraftState) (pool : List Str)
    (tr pp tp : Nat) (s0 : DraftState)
    (h : start_draft stored pool tr pp tp = (some s0, StartResult.started)) :
    s0 = { DraftState.init tr pp tp with available_players := pool, is_active := true } := by
  obtain ⟨h1, h2⟩ := start_draft_cases stored pool tr pp tp
  by_cases hc : isActiveOpt stored = true ∨ pool = []
  · exfalso
    have hne := h1.mpr hc
    rw [h] at hne
    exact hne rfl
  · rw [h] at h2
    rw [if_neg hc] at h2
    exact Option.some_inj.mp h2

/-- The round invariant of the spec: `current_round` is 1 before any pick
and `((picks_made − 1) div total_players) + 1` afterwards. -/
def roundInv (s : DraftState) : Prop :=
  s.current_round = if s.picks_made = 0 then 1 else (s.picks_made - 1) / s.total_players + 1

theorem runPicks_recorded_spec : ∀ (cs : List PickCmd) (s : DraftState),
    allRecorded s cs = true → roundInv s →
    (runPicks s cs).picks_made = s.picks_made + cs.length ∧
    (runPicks s cs).total_players = s.total_players ∧
    roundInv (runPicks s cs) := by
  intro cs
  induction cs with
  | nil => intro s _ hinv; exact ⟨rfl, rfl, hinv⟩
  | cons c cs ih =>
    intro s h hinv
    unfold allRecorded at h
    simp only [Bool.and_eq_true] at h
    obtain ⟨hrec, hrest⟩ := h
    obtain ⟨ha, he⟩ := update_draft_pick_recorded s c.pick_num c.player_name c.position hrec
    have hs := recordPickBody_spec s (c.pick_num == (s.pick_position : Int))
      c.player_name (parsedPos c.position) ha
    obtain ⟨hpm, hround, htp, _, _, _, _, _, _, _⟩ := hs
    rw [← he] at hpm hround htp
    set s' := (update_draft_pick s c.pick_num c.player_name c.position).1 with hs'
    have hinv' : roundInv s' := by
      unfold roundInv
      rw [hpm, hround, htp]
      simp
    have := ih s' hrest hinv'
    unfold runPicks
    rw [← hs']
    refine ⟨?_, ?_, this.2.2⟩
    · rw [this.1, hpm, List.length_cons]; omega
    · rw [this.2.1, htp]

theorem lowerN_lowerN (c : Nat) : lowerN (lowerN c) = lowerN c := by
  simp only [lowerN]; split_ifs <;> omega

theorem lowerN_upperN (c : Nat) : lowerN (upperN c) = lowerN c := by
  simp only [lowerN, upperN]; split_ifs <;> omega

theorem lowerStr_titleGo (s : Str) : ∀ (b : Bool), lowerStr (titleGo s b) = lowerStr s := by
  induction s with
  | nil => intro b; rfl
  | cons c rest ih =>
    intro b
    simp only [titleGo, lowerStr, List.map, List.cons.injEq]
    refine ⟨?_, ih _⟩
    split_ifs <;> simp [lowerN_lowerN, lowerN_upperN]

theorem lowerStr_titleCase (s : Str) : lowerStr (titleCase s) = lowerStr s :=
  lowerStr_titleGo s false

theorem isPrefixOf_self : ∀ (l : Str), l.isPrefixOf l = true := by
  intro l
  induction l with
  | nil => rfl
  | cons c rest ih => simp [List.isPrefixOf, ih]

theorem isSubstrN_self (l : Str) : isSubstrN l l = true := by
  cases l with
  | nil => rfl
  | cons c rest => simp [isSubstrN, isPrefixOf_self]

theorem findBestMatch_isSome (name : Str) :
    ∀ (pool : List Str) (b : Str), (findBestMatch name pool (some b)).isSome = true := by
  intro pool
  induction pool with
  | nil => intro b; rfl
  | cons p rest ih =>
    intro b
    simp only [findBestMatch]
    split
    · rfl
    · split
      · split <;> exact ih _
      · exact ih b

theorem findBestMatch_mem (name : Str) :
    ∀ (pool : List Str) (bestOpt : Option Str) (r : Str),
      findBestMatch name pool bestOpt = some r → r ∈ pool ∨ bestOpt = some r := by
  intro pool
  induction pool with
  | nil => intro bestOpt r h; exact Or.inr h
  | cons p rest ih =>
    intro bestOpt r h
    simp only [findBestMatch] at h
    split at h
    · left
      rw [← Option.some_inj.mp h]
      exact List.mem_cons_self p rest
    · cases bestOpt with
      | none =>
        by_cases hsub : isSubstrN (lowerStr name) (lowerStr p) = true
        · rw [if_pos hsub] at h
          have h2 : findBestMatch name rest (some p) = some r := h
          rcases ih _ _ h2 with hm | ha
          · exact Or.inl (List.mem_cons_of_mem p hm)
          · exact Or.inl (by rw [← Option.some_inj.mp ha]; exact List.mem_cons_self p rest)
        · rw [if_neg hsub] at h
          rcases ih _ _ h with hm | ha
          · exact Or.inl (List.mem_cons_of_mem p hm)
          · exact Option.noConfusion ha
      | some b =>
        by_cases hsub : isSubstrN (lowerStr name) (lowerStr p) = true
        · rw [if_pos hsub] at h
          have h2 : findBestMatch name rest
              (if p.length < b.length then some p else some b) = some r := h
          by_cases hl : p.length < b.length
          · rw [if_pos hl] at h2
            rcases ih _ _ h2 with hm | ha
            · exact Or.inl (List.mem_cons_of_mem p hm)
            · exact Or.inl (by rw [← Option.some_inj.mp ha]; exact List.mem_cons_self p rest)
          · rw [if_neg hl] at h2
            rcases ih _ _ h2 with hm | ha
            · exact Or.inl (List.mem_cons_of_mem p hm)
            · exact Or.inr ha
        · rw [if_neg hsub] at h
          rcases ih _ _ h with hm | ha
          · exact Or.inl (List.mem_cons_of_mem p hm)
          · exact Or.inr ha

theorem findBestMatch_none (name : Str) :
    ∀ (pool : List Str) (bestOpt : Option Str),
      findBestMatch name pool bestOpt = none → titleCase name ∉ pool := by
  intro pool
  induction pool with
  | nil => intro bestOpt _ hm; simp at hm
  | cons p rest ih =>
    intro bestOpt h hm
    simp only [findBestMatch] at h
    split at h
    · exact Option.noConfusion h
    · rcases List.mem_cons.mp hm with hp | hm'
      · -- p is the title-cased name, so the substring test succeeds and the
        -- accumulator becomes `some _`; the scan cannot return `none`.
        have hsub : isSubstrN (lowerStr name) (lowerStr p) = true := by
          rw [← hp, lowerStr_titleCase]
          exact isSubstrN_self _
        rw [if_pos hsub] at h
        cases bestOpt with
        | none =>
          have h2 : findBestMatch name rest (some p) = none := h
          have h3 := findBestMatch_isSome name rest p
          rw [h2] at h3
          simp at h3
        | some b =>
          have h2 : findBestMatch name rest
              (if p.length < b.length then some p else some b) = none := h
          by_cases hl : p.length < b.length
          · rw [if_pos hl] at h2
            have h3 := findBestMatch_isSome name rest p
            rw [h2] at h3
            simp at h3
          · rw [if_neg hl] at h2
            have h3 := findBestMatch_isSome name rest b
            rw [h2] at h3
            simp at h3
      · exact ih _ h hm'

/-!
## Helper lemmas about message chunking
-/

theorem splitMessagesGo_bound (B : Nat) :
    ∀ (ls resp : List Str) (cur : Str),
      (∀ l ∈ ls, l.length ≤ B) → (∀ c ∈ resp, c.length ≤ B) → cur.length ≤ B →
      ∀ c ∈ splitMessagesGo B ls resp cur, c.length ≤ B := by
  intro ls
  induction ls with
  | nil =>
    intro resp cur _ hresp hcur c hc
    unfold splitMessagesGo at hc
    split at hc
    · exact hresp c hc
    · rcases List.mem_append.mp hc with h | h
      · exact hresp c h
      · rw [List.mem_singleton.mp h]
        exact hcur
  | cons l ls ih =>
    intro resp cur hls hresp hcur c hc
    unfold splitMessagesGo at hc
    split at hc
    · refine ih (resp ++ [cur]) l (fun x hx => hls x (List.mem_cons_of_mem _ hx))
        (fun x hx => ?_) (hls l (List.mem_cons_self _ _)) c hc
      rcases List.mem_append.mp hx with h | h
      · exact hresp x h
      · rw [List.mem_singleton.mp h]
        exact hcur
    · rename_i hguard
      refine ih resp _ (fun x hx => hls x (List.mem_cons_of_mem _ hx)) hresp ?_ c hc
      split
      · exact hls l (List.mem_cons_self _ _)
      · simp only [List.length_append, List.length_cons]
        omega

theorem joinWith_cons_ne_nil (sep : Nat) (x : Str) (t : List Str) (h : t ≠ []) :
    joinWith sep (x :: t) = x ++ sep :: joinWith sep t := by
  cases t with
  | nil => exact absurd rfl h
  | cons y ys => rfl

theorem joinWith_merge (sep : Nat) :
    ∀ (resp : List Str) (a b : Str) (ls : List Str),
      joinWith sep (resp ++ (a ++ sep :: b) :: ls) = joinWith sep (resp ++ a :: b :: ls) := by
  intro resp
  induction resp with
  | nil =>
    intro a b ls
    cases ls with
    | nil => rfl
    | cons y ys =>
      rw [List.nil_append, List.nil_append,
        joinWith_cons_ne_nil sep _ (y :: ys) (by simp),
        joinWith_cons_ne_nil sep a (b :: y :: ys) (by simp),
        joinWith_cons_ne_nil sep b (y :: ys) (by simp)]
      simp [List.append_assoc]
  | cons r resp ih =>
    intro a b ls
    rw [List.cons_append, List.cons_append,
      joinWith_cons_ne_nil sep r _ (by simp),
      joinWith_cons_ne_nil sep r _ (by simp), ih]

theorem splitMessagesGo_join (B : Nat) :
    ∀ (ls resp : List Str) (cur : Str), cur ≠ [] → (∀ l ∈ ls, l ≠ []) →
      joinWith 10 (splitMessagesGo B ls resp cur) = joinWith 10 (resp ++ cur :: ls) := by
  intro ls
  induction ls with
  | nil =>
    intro resp cur hcur _
    unfold splitMessagesGo
    rw [if_neg (by simpa [List.isEmpty_iff] using hcur)]
  | cons l ls ih =>
    intro resp cur hcur hls
    unfold splitMessagesGo
    split
    · rw [ih (resp ++ [cur]) l (hls l (List.mem_cons_self _ _))
        (fun x hx => hls x (List.mem_cons_of_mem _ hx))]
      simp [List.append_assoc]
    · rw [if_neg (by simpa [List.isEmpty_iff] using hcur)]
      rw [ih resp (cur ++ 10 :: l) (by simp) (fun x hx => hls x (List.mem_cons_of_mem _ hx))]
      exact joinWith_merge 10 resp cur l ls

theorem splitNl_ne_nil (s : Str) : splitNl s ≠ [] := by
  cases s with
  | nil => simp [splitNl]
  | cons c rest =>
    unfold splitNl
    split
    · simp
    · split <;> simp

theorem joinWith_splitNl : ∀ (s : Str), joinWith 10 (splitNl s) = s := by
  intro s
  induction s with
  | nil => rfl
  | cons c rest ih =>
    unfold splitNl
    by_cases hc : c = 10
    · rw [if_pos hc, joinWith_cons_ne_nil 10 [] _ (splitNl_ne_nil rest)]
      simp [ih, hc]
    · rw [if_neg hc]
      cases hsp : splitNl rest with
      | nil => exact absurd hsp (splitNl_ne_nil rest)
      | cons l ls =>
        rw [hsp] at ih
        cases ls with
        | nil =>
          simpa [joinWith] using ih
        | cons m ms =>
          rw [joinWith_cons_ne_nil 10 (c :: l) (m :: ms) (by simp)]
          rw [joinWith_cons_ne_nil 10 l (m :: ms) (by simp)] at ih
          simp [← ih]

theorem split_into_messages_join (content : Str)
    (h1 : ∀ l ∈ splitNl content, l ≠ [])
    (h2 : ((splitNl content).headD []).length ≤ 1899) :
    joinWith 10 (split_into_messages content) = content := by
  unfold split_into_messages
  rcases hsp : splitNl content with _ | ⟨l1, rest⟩
  · exact absurd hsp (splitNl_ne_nil content)
  · rw [hsp] at h1 h2
    simp only [List.headD_cons] at h2
    unfold splitMessagesGo
    rw [if_neg (by simp only [List.length_nil]; omega)]
    have hcur : (if ([] : Str).isEmpty = true then l1 else [] ++ 10 :: l1) = l1 := rfl
    rw [hcur]
    rw [splitMessagesGo_join 1900 rest [] l1 (h1 l1 (List.mem_cons_self _ _))
      (fun x hx => h1 x (List.mem_cons_of_mem _ hx))]
    rw [List.nil_append, ← hsp, joinWith_splitNl]

theorem splitNl_no_newline :
    ∀ (s : Str), (∀ c ∈ s, c ≠ 10) → splitNl s = [s] := by
  intro s
  induction s with
  | nil => intro _; rfl
  | cons c rest ih =>
    intro h
    unfold splitNl
    rw [if_neg (h c (List.mem_cons_self _ _))]
    rw [ih (fun x hx => h x (List.mem_cons_of_mem _ hx))]

theorem split_into_messages_longline :
    split_into_messages (List.replicate 1901 97) = [[], List.replicate 1901 97] := by
  unfold split_into_messages
  rw [splitNl_no_newline _ (fun c hc => by rw [List.eq_of_mem_replicate hc]; omega)]
  unfold splitMessagesGo
  rw [if_pos (by simp only [List.length_nil, List.length_replicate]; omega)]
  unfold splitMessagesGo
  rw [if_neg (by simp [List.isEmpty_iff])]
  rfl

/-!
## Helper lemmas about the comparison ranking
-/

theorem compare_ranking_mem (es : List CmpEntry) (x : RankedEntry)
    (hx : x ∈ compare_ranking es) : ∃ e ∈ es, enrichEntry e = x := by
  unfold compare_ranking at hx
  have hm := (List.mergeSort_perm (es.map enrichEntry)
    (fun a b => decide (a.rank ≤ b.rank))).mem_iff.mp hx
  simpa using List.mem_map.mp hm

theorem compare_ranking_sorted (es : List CmpEntry) :
    List.Pairwise (fun a b : RankedEntry => a.rank ≤ b.rank) (compare_ranking es) := by
  unfold compare_ranking
  have hs := @List.sorted_mergeSort RankedEntry
    (fun a b : RankedEntry => decide (a.rank ≤ b.rank))
    (fun a b c hab hbc => by simp only [decide_eq_true_eq] at *; omega)
    (fun a b => by simp [Int.le_total]) (es.map enrichEntry)
  exact hs.imp (fun h => by simpa using h)

theorem enrichEntry_rank_seasonEnding (e : CmpEntry)
    (h : (enrichEntry e).status = InjStatus.seasonEnding) :
    (enrichEntry e).rank = 9999 := by
  unfold enrichEntry at *
  simp only at h
  rw [h]
  rfl


/-!
## Concrete example draft used by witnesses and counterexamples

A draft with `total_rounds = 2`, `pick_position = 3`, `total_players = 4`
over a pool of eight one-word player names, matching the spec's example
scenario, with the eight picks entered in order (pick 3 carries a position,
as the user's pick must).
-/

def examplePool : List Str :=
  [strN "Alpha", strN "Bravo", strN "Casey", strN "Delta",
   strN "Echo", strN "Fox", strN "Golf", strN "Hotel"]

def exampleStart : DraftState :=
  ((start_draft none examplePool 2 3 4).1).getD (DraftState.init 0 0 0)

def exampleCmds : List PickCmd :=
  [⟨1, strN "Alpha", none⟩, ⟨2, strN "Bravo", none⟩, ⟨3, strN "Casey", some (strN "PG")⟩,
   ⟨4, strN "Delta", none⟩, ⟨5, strN "Echo", none⟩, ⟨6, strN "Fox", none⟩,
   ⟨7, strN "Golf", none⟩, ⟨8, strN "Hotel", none⟩]

/-- C1 (counterexample): on the freshly started example draft
(`picks_made = 0`, `pick_position = 3`, `total_players = 4`), the very first
recorded call, entered with `pick_num = 3`, appends to `my_team`, although
`(picks_made_before mod total_players) + 1 = 1 ≠ 3`. -/
theorem c1_counterexample :
    ((exampleStart.picks_made % exampleStart.total_players) + 1 ≠ exampleStart.pick_position) ∧
    (update_draft_pick exampleStart 3 (strN "Alpha") (some (strN "PG"))).2.isRecorded = true ∧
    (update_draft_pick exampleStart 3 (strN "Alpha") (some (strN "PG"))).1.my_team
      ≠ exampleStart.my_team := by decide

/-- C1 (amended): for every recorded pick, the resolved player is appended
to `my_team` if and only if the caller-supplied `pick_num` equals
`pick_position`; the internally tracked `picks_made` counter plays no role
in the test. -/
theorem c1_myTeam_iff_pick_num (s : DraftState) (n : Int) (name : Str)
    (pos : Option Str)
    (hrec : (update_draft_pick s n name pos).2.isRecorded = true) :
    (update_draft_pick s n name pos).1.my_team
      = s.my_team ++ (if n = (s.pick_position : Int)
          then [(resolveName name s.available_players, parsedPos pos)] else []) := by
  obtain ⟨ha, he⟩ := update_draft_pick_recorded s n name pos hrec
  have hs := recordPickBody_spec s (n == (s.pick_position : Int)) name (parsedPos pos) ha
  obtain ⟨_, _, _, _, _, _, hteam, _, _, _⟩ := hs
  rw [← he] at hteam
  rw [hteam]
  by_cases hn : n = (s.pick_position : Int)
  · simp [hn]
  · simp [hn]

theorem c1_myTeam_iff_pick_num_witness :
    (update_draft_pick exampleStart 3 (strN "Alpha") (some (strN "PG"))).1.my_team
      = exampleStart.my_team ++ (if (3 : Int) = (exampleStart.pick_position : Int)
          then [(resolveName (strN "Alpha") exampleStart.available_players,
                 parsedPos (some (strN "PG")))] else []) :=
  c1_myTeam_iff_pick_num exampleStart 3 (strN "Alpha") (some (strN "PG")) (by decide)

/-- C2: after any sequence of recorded picks on a freshly started draft,
`picks_made` equals the number of calls, and `current_round` is
`((picks_made − 1) div total_players) + 1` when `picks_made ≥ 1` and `1`
when `picks_made = 0`. -/
theorem c2_picks_and_round (stored : Option DraftState) (pool : List Str)
    (tr pp tp : Nat) (s0 : DraftState) (cs : List PickCmd)
    (h0 : start_draft stored pool tr pp tp = (some s0, StartResult.started))
    (h1 : allRecorded s0 cs = true) :
    (runPicks s0 cs).picks_made = cs.length ∧
    (runPicks s0 cs).current_round
      = (if (runPicks s0 cs).picks_made = 0 then 1
         else ((runPicks s0 cs).picks_made - 1) / tp + 1) := by
  have hs0 := start_draft_started stored pool tr pp tp s0 h0
  have hpm0 : s0.picks_made = 0 := by rw [hs0]; rfl
  have htp0 : s0.total_players = tp := by rw [hs0]; rfl
  have hinv0 : roundInv s0 := by
    unfold roundInv
    rw [hs0]
    rfl
  obtain ⟨hpm, htp, hinv⟩ := runPicks_recorded_spec cs s0 h1 hinv0
  rw [htp0] at htp
  unfold roundInv at hinv
  rw [htp] at hinv
  exact ⟨by rw [hpm, hpm0, Nat.zero_add], hinv⟩

theorem c2_picks_and_round_witness :
    (runPicks exampleStart exampleCmds).picks_made = exampleCmds.length ∧
    (runPicks exampleStart exampleCmds).current_round
      = (if (runPicks exampleStart exampleCmds).picks_made = 0 then 1
         else ((runPicks exampleStart exampleCmds).picks_made - 1) / 4 + 1) :=
  c2_picks_and_round none examplePool 2 3 4 exampleStart exampleCmds (by decide) (by decide)

/-- C3 (counterexample): in the example scenario (2 rounds, position 3 of
4, picks 1-4 recorded in order), `current_round` after pick 4 is still 1,
not 2 as the claim states. -/
theorem c3_counterexample :
    (runPicks exampleStart (exampleCmds.take 4)).current_round ≠ 2 := by decide

/-- C3 (amended): in the example scenario the player of pick 3 lands in
`my_team`; after pick 4 `current_round` is still 1 and it becomes 2 when
pick 5 is recorded; after 8 picks the draft is inactive.  All eight calls
are genuine recorded picks. -/
theorem c3_scenario :
    (runPicks exampleStart (exampleCmds.take 3)).my_team
      = [(strN "Casey", some Position.PG)] ∧
    (runPicks exampleStart (exampleCmds.take 4)).current_round = 1 ∧
    (runPicks exampleStart (exampleCmds.take 5)).current_round = 2 ∧
    (runPicks exampleStart exampleCmds).is_active = false ∧
    allRecorded exampleStart exampleCmds = true := by decide

/-- C4: a recorded pick on an active draft with
`picks_made < total_rounds × total_players` deactivates the draft exactly
when the resulting `picks_made` reaches `total_rounds × total_players`; and
once a draft is inactive, no sequence of pick commands changes it at all
(so `is_active` can only become true again through a new `start_draft`). -/
theorem c4_deactivation (s : DraftState) (n : Int) (name : Str) (pos : Option Str)
    (cs : List PickCmd)
    (hrec : (update_draft_pick s n name pos).2.isRecorded = true)
    (hlt : s.picks_made < s.total_rounds * s.total_players) :
    s.is_active = true ∧
    ((update_draft_pick s n name pos).1.is_active = false
      ↔ (update_draft_pick s n name pos).1.picks_made
          = s.total_rounds * s.total_players) ∧
    (∀ s' : DraftState, s'.is_active = false → runPicks s' cs = s') := by
  obtain ⟨ha, he⟩ := update_draft_pick_recorded s n name pos hrec
  have hs := recordPickBody_spec s (n == (s.pick_position : Int)) name (parsedPos pos) ha
  obtain ⟨hpm, _, _, _, _, _, _, _, hact, _⟩ := hs
  rw [← he] at hpm hact
  refine ⟨ha, ?_, fun s' h' => runPicks_inactive cs s' h'⟩
  rw [hact, hpm]
  rw [Nat.mul_comm s.total_players s.total_rounds]
  omega

theorem c4_deactivation_witness :
    exampleStart.is_active = true ∧
    ((update_draft_pick exampleStart 1 (strN "Alpha") none).1.is_active = false
      ↔ (update_draft_pick exampleStart 1 (strN "Alpha") none).1.picks_made
          = exampleStart.total_rounds * exampleStart.total_players) ∧
    (∀ s' : DraftState, s'.is_active = false → runPicks s' exampleCmds = s') :=
  c4_deactivation exampleStart 1 (strN "Alpha") none exampleCmds (by decide) (by decide)

/-- C5: for every recorded pick, if the resolved name is present in
`available_players` then exactly one occurrence of it is removed (its count
drops by one and every other name's count is unchanged); if the resolved
name is absent, the pool is left entirely unchanged. -/
theorem c5_pool_removal (s : DraftState) (n : Int) (name : Str) (pos : Option Str)
    (hrec : (update_draft_pick s n name pos).2.isRecorded = true) :
    (resolveName name s.available_players ∈ s.available_players →
      List.count (resolveName name s.available_players)
          (update_draft_pick s n name pos).1.available_players
        = List.count (resolveName name s.available_players) s.available_players - 1 ∧
      (∀ x : Str, x ≠ resolveName name s.available_players →
        List.count x (update_draft_pick s n name pos).1.available_players
          = List.count x s.available_players)) ∧
    (resolveName name s.available_players ∉ s.available_players →
      (update_draft_pick s n name pos).1.available_players = s.available_players) := by
  obtain ⟨ha, he⟩ := update_draft_pick_recorded s n name pos hrec
  have hs := recordPickBody_spec s (n == (s.pick_position : Int)) name (parsedPos pos) ha
  obtain ⟨_, _, _, _, _, _, _, havail, _, _⟩ := hs
  rw [← he] at havail
  cases hbm : findBestMatch name s.available_players none with
  | none =>
    have hnm := findBestMatch_none name s.available_players none hbm
    have hres : resolveName name s.available_players = titleCase name := by
      unfold resolveName
      rw [hbm]
    simp only [hbm] at havail
    constructor
    · intro hmem
      rw [hres] at hmem
      exact absurd hmem hnm
    · intro _
      exact havail
  | some b =>
    have hbmem : b ∈ s.available_players := by
      rcases findBestMatch_mem name s.available_players none b hbm with h | h
      · exact h
      · exact Option.noConfusion h
    have hres : resolveName name s.available_players = b := by
      unfold resolveName
      rw [hbm]
    simp only [hbm] at havail
    constructor
    · intro _
      rw [havail, hres]
      refine ⟨List.count_erase_self b s.available_players, ?_⟩
      intro x hx
      exact List.count_erase_of_ne hx s.available_players
    · intro hmem
      rw [hres] at hmem
      exact absurd hbmem hmem

theorem c5_pool_removal_witness :
    resolveName (strN "Alpha") exampleStart.available_players
        ∈ exampleStart.available_players ∧
    List.count (resolveName (strN "Alpha") exampleStart.available_players)
        (update_draft_pick exampleStart 1 (strN "Alpha") none).1.available_players
      = List.count (resolveName (strN "Alpha") exampleStart.available_players)
          exampleStart.available_players - 1 :=
  ⟨by decide,
   ((c5_pool_removal exampleStart 1 (strN "Alpha") none (by decide)).1 (by decide)).1⟩

theorem fpmStage2_eq_amended : fpmStage2 = fpmStage2SpecAmended := rfl

/-- C6 (counterexample): on the directory `["Alebron Ajames", "Lebron
Jamesson"]` and query `"lebron james"`, the code's stage 2 (substring
containment on first/last tokens) matches `"Alebron Ajames"`, while the
claimed prefix-based stage 2 would match `"Lebron Jamesson"`: the claimed
staged algorithm computes a different result than the code. -/
theorem c6_counterexample :
    find_player_match (strN "lebron james")
        [strN "Alebron Ajames", strN "Lebron Jamesson"]
      = some (strN "Alebron Ajames") ∧
    find_player_match_SpecStated (strN "lebron james")
        [strN "Alebron Ajames", strN "Lebron Jamesson"]
      = some (strN "Lebron Jamesson") := by decide

/-- C6 (amended): name resolution applies the four stages in order with the
first producing stage winning, where stage 2 tests *substring containment*
of the query's first and last token in the candidate's first and last token
(and requires the candidate to have at least two tokens), the other stages
as claimed. -/
theorem c6_stages_amended (q : Str) (m : List Str) :
    find_player_match q m = find_player_match_SpecAmended q m := by
  unfold find_player_match find_player_match_SpecAmended
  rw [fpmStage2_eq_amended]

/-- C7: `start_draft` fails (returns something other than the settings
summary) exactly when the channel already holds an active draft or the
fetched pool is empty, in which case the stored state is unchanged;
otherwise it stores a fresh `DraftState` that is active and whose
`available_players` are exactly the directory names in ranking order. -/
theorem c7_start_draft_spec (stored : Option DraftState) (pool : List Str)
    (tr pp tp : Nat) :
    ((start_draft stored pool tr pp tp).2 ≠ StartResult.started
      ↔ (isActiveOpt stored = true ∨ pool = [])) ∧
    (start_draft stored pool tr pp tp).1
      = (if isActiveOpt stored = true ∨ pool = [] then stored
         else some { DraftState.init tr pp tp with
                       available_players := pool, is_active := true }) :=
  start_draft_cases stored pool tr pp tp

theorem c7_start_draft_spec_witness :
    (start_draft (some exampleStart) examplePool 2 3 4).1 = some exampleStart ∧
    (start_draft (some exampleStart) examplePool 2 3 4).2 ≠ StartResult.started := by
  have h := c7_start_draft_spec (some exampleStart) examplePool 2 3 4
  refine ⟨?_, h.1.mpr (Or.inl (by decide))⟩
  rw [h.2, if_pos (Or.inl (by decide))]

/-- C8 (counterexample): a reply consisting of one 1901-character line is
chunked into `["", <the 1901-character line>]`, so a chunk exceeds 1900
characters. -/
theorem c8_counterexample :
    ¬ (∀ c ∈ split_into_messages (List.replicate 1901 97), c.length ≤ 1900) := by
  intro h
  have hx := h (List.replicate 1901 97)
    (by rw [split_into_messages_longline]
        exact List.mem_cons_of_mem _ (List.mem_cons_self _ _))
  rw [List.length_replicate] at hx
  omega

/-- C8 (amended): every chunk produced for a reply has length at most 1900,
provided every line of the input has length at most 1900 (a single longer
line is passed through as an oversized chunk). -/
theorem c8_chunk_bound (content : Str)
    (h : ∀ l ∈ splitNl content, l.length ≤ 1900) :
    ∀ c ∈ split_into_messages content, c.length ≤ 1900 := by
  unfold split_into_messages
  exact splitMessagesGo_bound 1900 (splitNl content) [] [] h (by simp) (by simp)

theorem c8_chunk_bound_witness :
    (strN "Draft Analysis:\nRound 1 of 2").length ≤ 1900 :=
  c8_chunk_bound (strN "Draft Analysis:\nRound 1 of 2") (by decide)
    (strN "Draft Analysis:\nRound 1 of 2") (by decide)

/-- C10 (counterexample): the one-character content `"\n"` yields an empty
chunk list, so joining the chunks with a newline gives `""`, not the
original content: leading empty lines are dropped. -/
theorem c10_counterexample :
    strN "\n" ≠ [] ∧ split_into_messages (strN "\n") = [] ∧
    joinWith 10 (split_into_messages (strN "\n")) ≠ strN "\n" := by decide

/-- C10 (amended): joining the chunks with a newline reproduces the content
exactly whenever every line of the content is non-empty and the first line
fits in a chunk (length at most 1899); and the empty string yields an empty
chunk list. -/
theorem c10_rejoin (content : Str)
    (h1 : ∀ l ∈ splitNl content, l ≠ [])
    (h2 : ((splitNl content).headD []).length ≤ 1899) :
    joinWith 10 (split_into_messages content) = content ∧
    split_into_messages ([] : Str) = [] :=
  ⟨split_into_messages_join content h1 h2, by decide⟩

theorem c10_rejoin_witness :
    joinWith 10 (split_into_messages (strN "hello\nworld")) = strN "hello\nworld" :=
  (c10_rejoin (strN "hello\nworld") (by decide) (by decide)).1

/-- C9 (counterexample): a season-ending player with original rank 1 is
sorted *before* a healthy player whose original rank is 10000, because the
season-ending sentinel rank 9999 is not the worst possible rank: the claim
fails for ranks at or beyond 9999. -/
theorem c9_counterexample :
    compare_ranking [⟨strN "Alpha", 1, strN "season ending", strN ""⟩,
        ⟨strN "Beta", 10000, strN "no news", strN "no news"⟩]
      = [⟨strN "Alpha", InjStatus.seasonEnding, 9999⟩,
         ⟨strN "Beta", InjStatus.healthy, 10000⟩] := by
  have h1 : enrichEntry ⟨strN "Alpha", 1, strN "season ending", strN ""⟩
      = ⟨strN "Alpha", .seasonEnding, 9999⟩ := by decide
  have h2 : enrichEntry ⟨strN "Beta", 10000, strN "no news", strN "no news"⟩
      = ⟨strN "Beta", .healthy, 10000⟩ := by decide
  simp [compare_ranking, List.mergeSort, List.merge, h1, h2]

/-- C9 (amended): provided every non-season-ending player's adjusted rank
is below the season-ending sentinel 9999, every player flagged
Season-Ending appears strictly after every non-season-ending player in the
final ranking, regardless of original rank. -/
theorem c9_season_ending_last (es : List CmpEntry)
    (hb : ∀ e ∈ es, (enrichEntry e).status ≠ InjStatus.seasonEnding →
      (enrichEntry e).rank < 9999)
    (i j : Nat) (x y : RankedEntry)
    (hi : (compare_ranking es).get? i = some x)
    (hx : x.status = InjStatus.seasonEnding)
    (hj : (compare_ranking es).get? j = some y)
    (hy : y.status ≠ InjStatus.seasonEnding) :
    j < i := by
  have hrx : x.rank = 9999 := by
    obtain ⟨e, _, hee⟩ := compare_ranking_mem es x (List.get?_mem hi)
    rw [← hee] at hx ⊢
    exact enrichEntry_rank_seasonEnding e hx
  have hry : y.rank < 9999 := by
    obtain ⟨e, he, hee⟩ := compare_ranking_mem es y (List.get?_mem hj)
    rw [← hee] at hy ⊢
    exact hb e he hy
  obtain ⟨hi_lt, hgi⟩ := List.get?_eq_some.mp hi
  obtain ⟨hj_lt, hgj⟩ := List.get?_eq_some.mp hj
  by_contra hle
  push_neg at hle
  rcases Nat.lt_or_ge i j with hlt | hge
  · have hrel := (List.pairwise_iff_get.mp (compare_ranking_sorted es))
      ⟨i, hi_lt⟩ ⟨j, hj_lt⟩ hlt
    rw [hgi, hgj] at hrel
    omega
  · have heq : i = j := by omega
    rw [heq, hj] at hi
    rw [← Option.some_inj.mp hi] at hx
    exact hy hx

/-- A two-player comparison: a healthy rank-5 player entered first, a
season-ending rank-1 player entered second. -/
def exampleCmp : List CmpEntry :=
  [⟨strN "Beta", 5, strN "no news", strN "no news"⟩,
   ⟨strN "Alpha", 1, strN "season ending", strN ""⟩]

theorem compare_ranking_exampleCmp :
    compare_ranking exampleCmp
      = [⟨strN "Beta", InjStatus.healthy, 5⟩,
         ⟨strN "Alpha", InjStatus.seasonEnding, 9999⟩] := by
  have h1 : enrichEntry ⟨strN "Beta", 5, strN "no news", strN "no news"⟩
      = ⟨strN "Beta", .healthy, 5⟩ := by decide
  have h2 : enrichEntry ⟨strN "Alpha", 1, strN "season ending", strN ""⟩
      = ⟨strN "Alpha", .seasonEnding, 9999⟩ := by decide
  simp [exampleCmp, compare_ranking, List.mergeSort, List.merge, h1, h2]

theorem c9_season_ending_last_witness : (0 : Nat) < 1 :=
  c9_season_ending_last exampleCmp (by decide) 1 0
    ⟨strN "Alpha", InjStatus.seasonEnding, 9999⟩
    ⟨strN "Beta", InjStatus.healthy, 5⟩
    (by rw [compare_ranking_exampleCmp]; rfl)
    (by decide)
    (by rw [compare_ranking_exampleCmp]; rfl)
    (by decide)
